import Mathlib

/-!
Verification of the natural-language specification of the
`modern-monaco-self-host` repository against its JavaScript sources,
via a shallow embedding in Lean 4.

Embedded components:
* the watch–rebuild–serve loop of `scripts/dev.js` (`DevServer.build`,
  the `finally` block, and the queued `setTimeout` rebuild);
* the asset copier of `scripts/copy-monaco.js` (`ensureDir`, `copyFile`,
  `copyDirectory`, and the critical-file verification in
  `copyModernMonaco`);
* the Express static server of `server.js` (MIME middleware, the two
  `express.static` mounts, `/health`, `/debug/files`, the `*.js` and
  `*.mjs` 404 handlers and the catch-all fallback);
* the setup-verification runner (`SetupTester`).

File-system primitives (`fs.access`, `fs.copyFile`, `http.get`,
`JSON.parse`) are modelled by explicit oracles; everything else is
translated statement by statement from the source.
-/

namespace DevLoop

/-- Outcome of one `buildProject()` invocation (`scripts/build.js`).
On success the promise resolves; on any error the `catch` block of
`buildProject` prints a diagnostic and calls `process.exit(1)` — the
promise never rejects back into `dev.js`. -/
inductive BuildResult where
  | success : BuildResult
  | failure : BuildResult
deriving DecidableEq, Repr

/-- State of the `DevServer` instance of `scripts/dev.js` together with
the ambient Node process.  `isBuilding` and `buildQueue` are the two
instance fields; `timerPending` records a scheduled
`setTimeout(() => this.build(), 100)` callback that has not fired yet;
`buildsStarted` counts how many times the body of `build()` passed the
`isBuilding` guard and invoked `buildProject()`; `exited` is `some c`
once `process.exit(c)` has been called. -/
structure DevState where
  isBuilding : Bool
  buildQueue : Bool
  timerPending : Bool
  buildsStarted : Nat
  exited : Option Nat
deriving DecidableEq, Repr

/-- Initial state of a freshly constructed `DevServer`. -/
def devInit : DevState :=
  ⟨false, false, false, 0, none⟩

/-- The synchronous front part of `DevServer.build()` (dev.js lines
43–50): if a build is in progress, only set `buildQueue` and return;
otherwise set `isBuilding` and invoke `buildProject()` (counted in
`buildsStarted`).  Once the process has exited nothing runs any more. -/
def callBuild (s : DevState) : DevState :=
  if s.exited.isSome then s
  else if s.isBuilding then { s with buildQueue := true }
  else { s with isBuilding := true, buildsStarted := s.buildsStarted + 1 }

/-- Completion of the in-flight `buildProject()` invocation with result
`r`.  On failure, `buildProject`'s own `catch` calls `process.exit(1)`,
so the `finally` block of `DevServer.build` never runs.  On success the
`finally` block clears `isBuilding` and, if `buildQueue` is set, clears
it and schedules one `setTimeout(() => this.build(), 100)`. -/
def buildCompletes (s : DevState) (r : BuildResult) : DevState :=
  match r with
  | .failure => { s with exited := some 1 }
  | .success =>
      let s1 := { s with isBuilding := false }
      if s1.buildQueue then
        { s1 with buildQueue := false, timerPending := true }
      else s1

/-- The scheduled `setTimeout` callback fires and calls `this.build()`
again. -/
def timerFires (s : DevState) : DevState :=
  if s.exited.isSome then s
  else callBuild { s with timerPending := false }

end DevLoop

namespace CopyMonaco

/-- The fixed critical-file list of `copyModernMonaco`
(`scripts/copy-monaco.js` lines 75–84). -/
def criticalFiles : List String :=
  ["index.mjs", "editor-core.mjs", "editor-worker.mjs",
   "lsp/typescript/worker.mjs", "lsp/html/worker.mjs",
   "lsp/css/worker.mjs", "lsp/json/worker.mjs", "onig.wasm"]

/-- Observable outcome of the tail of `copyModernMonaco` (after
`copyDirectory` has run): whether `process.exit` was called with a
non-zero code, and whether `verification.json` (with `status: ready`)
was written. -/
structure CopyRunResult where
  exitCode : Option Nat
  manifestWritten : Bool
deriving DecidableEq, Repr

/-- The verification loop of `copyModernMonaco` (lines 86–98):
`allFilesPresent` starts `true` and is set to `false` whenever
`fs.access` fails for a critical file.  `present` is the oracle for
`fs.access` succeeding on `publicMonacoPath/<file>`. -/
def verifyCriticalFiles (present : String → Bool) : Bool :=
  criticalFiles.foldl (fun acc f => if present f then acc else false) true

/-- The tail of `copyModernMonaco` (lines 86–120): verify the critical
files, exit non-zero if any is missing, otherwise write the
`verification.json` manifest. -/
def finishCopy (present : String → Bool) : CopyRunResult :=
  if !verifyCriticalFiles present then ⟨some 1, false⟩
  else ⟨none, true⟩

/-- A source directory tree as read by `fs.readdir(..., withFileTypes)`:
each entry is either a regular file (with its byte content, modelled as
a string) or a subdirectory with its own entries. -/
inductive FsTree where
  | file (name : String) (content : String) : FsTree
  | dir (name : String) (children : List FsTree) : FsTree

/-- Destination file-system state: the set of directories created so
far and a path-to-content map for the files written so far.  The copier
only ever creates directories and writes whole files, so this is the
whole footprint it touches. -/
structure DestFS where
  dirs : List String
  files : List (String × String)
deriving DecidableEq, Repr

/-- The empty destination. -/
def emptyFS : DestFS := ⟨[], []⟩

/-- Errors of the modelled `fs` primitives. -/
inductive FsError where
  | eexist : FsError
  | other (msg : String) : FsError
deriving DecidableEq, Repr

/-- `fs.mkdir(dir, recursive true)`: creating an already-existing
directory is not an error; a missing directory is recorded.  (Parent
directories are not tracked individually; each ensured path is recorded
as a unit, which is all the copier ever queries.) -/
def mkdirRecursive (st : DestFS) (d : String) : Except FsError DestFS :=
  .ok { st with dirs := if d ∈ st.dirs then st.dirs else d :: st.dirs }

/-- `ensureDir` of `scripts/copy-monaco.js` lines 9–17: call `fs.mkdir`
recursively and swallow an `EEXIST` error; rethrow anything else. -/
def ensureDir (st : DestFS) (d : String) : Except FsError DestFS :=
  match mkdirRecursive st d with
  | .ok st1 => .ok st1
  | .error .eexist => .ok st
  | .error e => .error e

/-- `path.dirname` for the slash-separated relative paths the copier
builds with `path.join`. -/
def dirname (p : String) : String :=
  String.intercalate "/" (p.splitOn "/").dropLast

/-- Write one file into the path-to-content map, overwriting the entry
with the same path if present (the semantics of `fs.copyFile`). -/
def setFile : List (String × String) → String → String → List (String × String)
  | [], k, v => [(k, v)]
  | (k1, v1) :: tl, k, v =>
      if k1 = k then (k, v) :: tl else (k1, v1) :: setFile tl k v

/-- Look a path up in the path-to-content map. -/
def lookupFile : List (String × String) → String → Option String
  | [], _ => none
  | (k1, v1) :: tl, k => if k1 = k then some v1 else lookupFile tl k

/-- Write a list of files in order. -/
def writeAll (fs : List (String × String)) (new : List (String × String)) :
    List (String × String) :=
  new.foldl (fun acc kv => setFile acc kv.1 kv.2) fs

/-- `copyFile` of `scripts/copy-monaco.js` lines 19–28: ensure the
destination's parent directory, copy the bytes, return `true`; on any
error, log a warning and return `false` (the error is swallowed).  The
oracle `ok` tells whether the primitive `fs.copyFile` succeeds for a
given source path; `content` is the source file's bytes. -/
def copyFile (ok : String → Bool) (src dest content : String) (st : DestFS) :
    DestFS × Bool :=
  match ensureDir st (dirname dest) with
  | .error _ => (st, false)
  | .ok st1 =>
      if ok src then
        ({ st1 with files := setFile st1.files dest content }, true)
      else (st1, false)

mutual

/-- `copyDirectory` of `scripts/copy-monaco.js` lines 30–48: ensure the
destination directory, read the source entries, and copy each — files
via `copyFile`, subdirectories recursively.  Any error escaping the
body is caught and logged.  Returns the new destination state and, for
audit, the ordered list of (source path, copy succeeded) pairs. -/
def copyDirectory (ok : String → Bool) (src dest : String)
    (children : List FsTree) (st : DestFS) : DestFS × List (String × Bool) :=
  match ensureDir st dest with
  | .error _ => (st, [])
  | .ok st1 => copyEntries ok src dest children st1

/-- The `for (const entry of entries)` loop body of `copyDirectory`. -/
def copyEntries (ok : String → Bool) (src dest : String) :
    List FsTree → DestFS → DestFS × List (String × Bool)
  | [], st => (st, [])
  | .file name content :: tl, st =>
      let r := copyFile ok (src ++ "/" ++ name) (dest ++ "/" ++ name) content st
      let rest := copyEntries ok src dest tl r.1
      (rest.1, (src ++ "/" ++ name, r.2) :: rest.2)
  | .dir name sub :: tl, st =>
      let r := copyDirectory ok (src ++ "/" ++ name) (dest ++ "/" ++ name) sub st
      let rest := copyEntries ok src dest tl r.1
      (rest.1, r.2 ++ rest.2)

end

/-- Source paths of all files in a tree, in traversal order. -/
def filePathsUnder (src : String) : List FsTree → List String
  | [] => []
  | .file name _ :: tl => (src ++ "/" ++ name) :: filePathsUnder src tl
  | .dir name sub :: tl =>
      filePathsUnder (src ++ "/" ++ name) sub ++ filePathsUnder src tl

/-- Destination paths and contents of all files in a tree, in traversal
order. -/
def destFilesUnder (dest : String) : List FsTree → List (String × String)
  | [] => []
  | .file name content :: tl =>
      (dest ++ "/" ++ name, content) :: destFilesUnder dest tl
  | .dir name sub :: tl =>
      destFilesUnder (dest ++ "/" ++ name) sub ++ destFilesUnder dest tl

/-- Number of files in a tree. -/
def fileCount : List FsTree → Nat
  | [] => 0
  | .file _ _ :: tl => fileCount tl + 1
  | .dir _ sub :: tl => fileCount sub + fileCount tl

/-- All directory paths `ensureDir` is called on while copying the
entries of a directory (the parent of each file, and each subdirectory
with its descendants). -/
def ensuredDirs (dest : String) : List FsTree → List String
  | [] => []
  | .file name _ :: tl =>
      dirname (dest ++ "/" ++ name) :: ensuredDirs dest tl
  | .dir name sub :: tl =>
      (dest ++ "/" ++ name) ::
        (ensuredDirs (dest ++ "/" ++ name) sub ++ ensuredDirs dest tl)

/-- Record one created directory (insert if absent). -/
def addDir (ds : List String) (d : String) : List String :=
  if d ∈ ds then ds else d :: ds

/-- Record a sequence of created directories in order. -/
def addDirs (ds : List String) (seq : List String) : List String :=
  seq.foldl addDir ds

/-- The all-copies-succeed oracle. -/
def allOk : String → Bool := fun _ => true

end CopyMonaco

namespace StaticServer

/-- An incoming HTTP GET request against `server.js`: the URL path
(`req.path`) and whether the client accepts HTML
(`req.accepts(html)`). -/
structure Request where
  path : String
  acceptsHtml : Bool
deriving DecidableEq, Repr

/-- What the response body is: a file streamed by `express.static` from
one of the two static roots, the default document sent by
`res.sendFile(public/index.html)`, the JSON payloads of `/health` and
`/debug/files`, or a plain text message. -/
inductive Body where
  | staticFile (root rel : String) : Body
  | indexHtml : Body
  | healthJson : Body
  | debugJson : Body
  | text (s : String) : Body
deriving DecidableEq, Repr

/-- An HTTP response: status code, headers, body. -/
structure Response where
  status : Nat
  headers : List (String × String)
  body : Body
deriving DecidableEq, Repr

/-- `res.setHeader(k, v)`: set a header, replacing an existing value
for the same name. -/
def setHeader (hs : List (String × String)) (k v : String) :
    List (String × String) :=
  CopyMonaco.setFile hs k v

/-- Read a header from the response. -/
def getHeader (hs : List (String × String)) (k : String) : Option String :=
  CopyMonaco.lookupFile hs k

/-- `p.endsWith(s)` on request and file paths, as a suffix test on the
character list. -/
def pathEndsWith (p s : String) : Bool :=
  decide (s.data <:+ p.data)

/-- `req.path.includes(.)`: the path contains a dot. -/
def pathHasDot (p : String) : Bool :=
  decide ('.' ∈ p.data)

/-- `p.startsWith(s)` as a list-of-characters test (how an
`app.use(mount, ...)` route matches the mount point). -/
def pathStartsWith (p s : String) : Bool :=
  decide (s.data <+: p.data)

/-- Express strips the mount point `/monaco` (7 characters) from the
request path before consulting the static handler mounted there. -/
def stripMount (p : String) : String :=
  String.mk (p.data.drop 7)

/-- The MIME/cache/security middleware of `server.js` lines 25–46:
explicit `Content-Type` for `.mjs` and `.wasm`, a far-future
`Cache-Control` for the asset-extension regex, and the two isolation
headers set unconditionally. -/
def mimeMiddleware (p : String) (hs : List (String × String)) :
    List (String × String) :=
  let hs1 := if pathEndsWith p ".mjs" then
    setHeader hs "Content-Type" "application/javascript" else hs
  let hs2 := if pathEndsWith p ".wasm" then
    setHeader hs1 "Content-Type" "application/wasm" else hs1
  let hs3 := if pathEndsWith p ".mjs" || pathEndsWith p ".wasm" ||
      pathEndsWith p ".js" || pathEndsWith p ".css" ||
      pathEndsWith p ".html" then
    setHeader hs2 "Cache-Control" "public, max-age=31536000" else hs2
  let hs4 := setHeader hs3 "Cross-Origin-Embedder-Policy" "require-corp"
  setHeader hs4 "Cross-Origin-Opener-Policy" "same-origin"

/-- The `setHeaders` callback passed to both `express.static` mounts
(`server.js` lines 50–58 and 63–70), applied to the resolved file
path. -/
def staticSetHeaders (filePath : String) (hs : List (String × String)) :
    List (String × String) :=
  let hs1 := if pathEndsWith filePath ".mjs" then
    setHeader hs "Content-Type" "application/javascript" else hs
  if pathEndsWith filePath ".wasm" then
    setHeader hs1 "Content-Type" "application/wasm" else hs1

/-- `express.static` serving an existing file `rel` from `root`: a 200
response whose headers have passed through the `setHeaders` callback on
the resolved file path.  (The underlying `send` would additionally fill
in a `Content-Type` from its extension table only when none is set;
that default lookup is irrelevant to the claims, which concern the
extensions the middleware sets explicitly, so it is not modelled.) -/
def serveStatic (root rel : String) (hs : List (String × String)) :
    Response :=
  { status := 200, headers := staticSetHeaders (root ++ rel) hs,
    body := .staticFile root rel }

/-- The full GET pipeline of `server.js` in registration order: the
MIME middleware, `express.static(public)`, `express.static(../../dist)`
mounted at `/monaco`, `GET /health`, `GET /debug/files`, the `*.js`
and `*.mjs` 404 handlers, and the catch-all fallback that sends
`public/index.html` only to an HTML-accepting client whose path has no
dot.  `publicFS` and `monacoFS` are the files that exist under the two
static roots, as slash-prefixed paths relative to each root. -/
def handle (publicFS monacoFS : List String) (req : Request) : Response :=
  let hs := mimeMiddleware req.path []
  if req.path ∈ publicFS then
    serveStatic "public" req.path hs
  else if pathStartsWith req.path "/monaco/" = true ∧
      stripMount req.path ∈ monacoFS then
    serveStatic "../../dist" (stripMount req.path) hs
  else if req.path = "/health" then
    { status := 200, headers := hs, body := .healthJson }
  else if req.path = "/debug/files" then
    { status := 200, headers := hs, body := .debugJson }
  else if pathEndsWith req.path ".js" then
    { status := 404, headers := hs, body := .text "JavaScript file not found" }
  else if pathEndsWith req.path ".mjs" then
    { status := 404, headers := hs, body := .text "Module file not found" }
  else if req.acceptsHtml && !pathHasDot req.path then
    { status := 200, headers := hs, body := .indexHtml }
  else
    { status := 404, headers := hs, body := .text "File not found" }

end StaticServer

namespace SetupTest

/-- Result of the `http.get` probe of `SetupTester.testHttpEndpoint`:
a response with a status code, a connection error (the `error` event,
e.g. refused) carrying a message, or the 5-second timeout firing. -/
inductive HttpResult where
  | status (code : Nat) : HttpResult
  | connError (msg : String) : HttpResult
  | timeout : HttpResult
deriving DecidableEq, Repr

/-- Environment oracles for the runner's primitives: whether
`fs.access` succeeds for a path, what `fs.readFile` returns (`.error`
carries the exception message), the outcome of `http.get` per URL, and
the script names obtained by reading and `JSON.parse`-ing
`package.json` (`.error` = that read or parse threw). -/
structure TestEnv where
  fileOk : String → Bool
  readFile : String → Except String String
  http : String → HttpResult
  packageScripts : Except String (List String)

/-- The three outcome arrays of a `SetupTester` instance. -/
structure TesterState where
  errors : List String
  warnings : List String
  successes : List String
deriving DecidableEq, Repr

/-- A freshly constructed `SetupTester`. -/
def initialState : TesterState := ⟨[], [], []⟩

/-- One recorded outcome, i.e. which array `log(message, type)` pushes
the message onto.  `info` logs are printed but pushed nowhere, so they
do not appear. -/
inductive CheckResult where
  | success (msg : String) : CheckResult
  | warning (msg : String) : CheckResult
  | error (msg : String) : CheckResult
deriving DecidableEq, Repr

/-- `SetupTester.log`: push the message onto the matching array. -/
def record (st : TesterState) : CheckResult → TesterState
  | .success m => { st with successes := st.successes ++ [m] }
  | .warning m => { st with warnings := st.warnings ++ [m] }
  | .error m => { st with errors := st.errors ++ [m] }

/-- `content.includes(expected)` as a character-list infix test. -/
def strIncludes (hay needle : String) : Bool :=
  decide (needle.data <:+: hay.data)

/-- `SetupTester.testFileExists`: `fs.access` success logs a success,
failure is caught and logs an error; either way the method returns
(its boolean result is unused by `runTests`). -/
def testFileExists (env : TestEnv) (p desc : String) (st : TesterState) :
    TesterState :=
  if env.fileOk p then record st (.success (desc ++ " exists"))
  else record st (.error (desc ++ " missing: " ++ p))

/-- `SetupTester.testFileContent`: read the file; on success log a
success or warning depending on `includes`; a read error is caught and
logged as an error. -/
def testFileContent (env : TestEnv) (p desc expected : String)
    (st : TesterState) : TesterState :=
  match env.readFile p with
  | .ok content =>
      if strIncludes content expected then
        record st (.success (desc ++ " contains expected content"))
      else
        record st (.warning (desc ++ " missing expected content: " ++ expected))
  | .error msg => record st (.error ("Cannot read " ++ desc ++ ": " ++ msg))

/-- `SetupTester.testHttpEndpoint`: a 200 logs a success, any other
status a warning, a connection error or the timeout an error.  Every
branch resolves the promise (with a boolean `runTests` ignores); none
rejects. -/
def testHttpEndpoint (env : TestEnv) (url desc : String)
    (st : TesterState) : TesterState :=
  match env.http url with
  | .status code =>
      if code = 200 then
        record st (.success (desc ++ " responds correctly (" ++ toString code ++ ")"))
      else
        record st (.warning (desc ++ " returns " ++ toString code))
  | .connError msg => record st (.error (desc ++ " not accessible: " ++ msg))
  | .timeout => record st (.error (desc ++ " timeout"))

/-- The nine distribution files checked in Test 3 of `runTests`. -/
def monacoFiles : List String :=
  ["index.mjs", "editor-core.mjs", "editor-worker-main.mjs",
   "lsp/index.mjs", "lsp/typescript/worker.mjs", "lsp/html/worker.mjs",
   "lsp/css/worker.mjs", "lsp/json/worker.mjs", "onig.wasm"]

/-- The five scripts required by Test 7 of `runTests`. -/
def requiredScripts : List String :=
  ["build", "dev", "start", "setup", "copy-monaco"]

/-- `SetupTester.runTests`: the fixed, ordered, straight-line sequence
of checks (project structure, build outputs, distribution files,
the import map, server configuration, HTTP endpoints, package scripts),
threading the tester state through every check.  Paths are the
arguments of `path.join(projectRoot, ...)` relative to the project
root. -/
def runTests (env : TestEnv) : TesterState :=
  let st0 := initialState
  let st1 := testFileExists env "package.json" "package.json" st0
  let st2 := testFileExists env "server.js" "server.js" st1
  let st3 := testFileExists env "src/index.html" "src/index.html" st2
  let st4 := testFileExists env "src/app.js" "src/app.js" st3
  let st5 := testFileExists env "public/index.html" "Built HTML file" st4
  let st6 := testFileExists env "public/dist/app.js"
    "Built JavaScript bundle" st5
  let st7 := monacoFiles.foldl (fun st file =>
    testFileExists env ("public/monaco/" ++ file)
      ("Monaco file: " ++ file) st) st6
  let st8 := testFileContent env "public/index.html" "Import map in HTML"
    "\"modern-monaco\": \"/monaco/index.mjs\"" st7
  let st9 := testFileContent env "server.js"
    "Server MIME type configuration" "application/javascript" st8
  let st10 := testFileContent env "server.js" "Server CORS configuration"
    "cors" st9
  let st11 := testHttpEndpoint env "http://localhost:3000/health"
    "Health endpoint" st10
  let st12 := testHttpEndpoint env "http://localhost:3000/monaco/index.mjs"
    "Monaco main file" st11
  let st13 := testHttpEndpoint env
    "http://localhost:3000/monaco/editor-worker-main.mjs"
    "Editor worker" st12
  match env.packageScripts with
  | .ok scripts => requiredScripts.foldl (fun st s =>
      if s ∈ scripts then
        record st (.success ("Script \"" ++ s ++ "\" defined"))
      else
        record st (.error ("Script \"" ++ s ++ "\" missing"))) st13
  | .error msg => record st13 (.error ("Cannot read package.json: " ++ msg))

/-- Outcome a `testFileExists` check records, as a function of the
environment alone. -/
def fileExistsOutcome (env : TestEnv) (p desc : String) : CheckResult :=
  if env.fileOk p then .success (desc ++ " exists")
  else .error (desc ++ " missing: " ++ p)

/-- Outcome a `testFileContent` check records, as a function of the
environment alone. -/
def fileContentOutcome (env : TestEnv) (p desc expected : String) :
    CheckResult :=
  match env.readFile p with
  | .ok content =>
      if strIncludes content expected then
        .success (desc ++ " contains expected content")
      else
        .warning (desc ++ " missing expected content: " ++ expected)
  | .error msg => .error ("Cannot read " ++ desc ++ ": " ++ msg)

/-- Outcome a `testHttpEndpoint` check records, as a function of the
environment alone: 200 is a success, another status a warning, a
refused connection or a timeout an error (probed once, no retry). -/
def httpOutcome (env : TestEnv) (url desc : String) : CheckResult :=
  match env.http url with
  | .status code =>
      if code = 200 then
        .success (desc ++ " responds correctly (" ++ toString code ++ ")")
      else
        .warning (desc ++ " returns " ++ toString code)
  | .connError msg => .error (desc ++ " not accessible: " ++ msg)
  | .timeout => .error (desc ++ " timeout")

/-- Outcomes of Test 7: one per required script when `package.json`
parses, a single error otherwise. -/
def scriptOutcomes (env : TestEnv) : List CheckResult :=
  match env.packageScripts with
  | .ok scripts => requiredScripts.map (fun s =>
      if s ∈ scripts then
        CheckResult.success ("Script \"" ++ s ++ "\" defined")
      else
        CheckResult.error ("Script \"" ++ s ++ "\" missing"))
  | .error msg => [.error ("Cannot read package.json: " ++ msg)]

/-- The outcome every check of the fixed sequence records, in order,
each a function of the environment alone. -/
def checkOutcomes (env : TestEnv) : List CheckResult :=
  [fileExistsOutcome env "package.json" "package.json",
   fileExistsOutcome env "server.js" "server.js",
   fileExistsOutcome env "src/index.html" "src/index.html",
   fileExistsOutcome env "src/app.js" "src/app.js",
   fileExistsOutcome env "public/index.html" "Built HTML file",
   fileExistsOutcome env "public/dist/app.js" "Built JavaScript bundle"]
  ++ monacoFiles.map (fun file =>
      fileExistsOutcome env ("public/monaco/" ++ file)
        ("Monaco file: " ++ file))
  ++ [fileContentOutcome env "public/index.html" "Import map in HTML"
        "\"modern-monaco\": \"/monaco/index.mjs\"",
      fileContentOutcome env "server.js" "Server MIME type configuration"
        "application/javascript",
      fileContentOutcome env "server.js" "Server CORS configuration" "cors",
      httpOutcome env "http://localhost:3000/health" "Health endpoint",
      httpOutcome env "http://localhost:3000/monaco/index.mjs"
        "Monaco main file",
      httpOutcome env "http://localhost:3000/monaco/editor-worker-main.mjs"
        "Editor worker"]
  ++ scriptOutcomes env

/-- The counts printed by `SetupTester.generateReport`:
successes, warnings, errors. -/
def generateReport (st : TesterState) : Nat × Nat × Nat :=
  (st.successes.length, st.warnings.length, st.errors.length)

/-- An environment in which every primitive fails: no file exists,
every read throws, every probe times out, `package.json` cannot be
parsed. -/
def failEnv : TestEnv :=
  ⟨fun _ => false, fun _ => .error "ENOENT", fun _ => .timeout,
   .error "ENOENT"⟩

end SetupTest

namespace DevLoop

/-- A change (or add/unlink) watcher event arriving while a build is in
progress only sets the `buildQueue` flag. -/
theorem callBuild_building (s : DevState) (hb : s.isBuilding = true)
    (he : s.exited = none) : callBuild s = { s with buildQueue := true } := by
  simp [callBuild, he, hb]

/-- Iterating change events while building is absorbed after the first. -/
theorem callBuild_iterate_building (s : DevState) (hb : s.isBuilding = true)
    (he : s.exited = none) :
    ∀ k : Nat, 1 ≤ k → callBuild^[k] s = { s with buildQueue := true } := by
  intro k hk
  induction k with
  | zero => omega
  | succ n ih =>
      rcases Nat.eq_or_lt_of_le hk with h1 | h1
      · simp [← h1, callBuild_building s hb he]
      · rw [Function.iterate_succ_apply', ih (by omega)]
        exact callBuild_building _ hb he

end DevLoop

namespace CopyMonaco

theorem foldl_and_pred (present : String → Bool) (l : List String)
    (init : Bool) :
    l.foldl (fun acc f => if present f then acc else false) init
      = (init && l.all present) := by
  induction l generalizing init with
  | nil => simp
  | cons hd tl ih =>
      rw [List.foldl_cons, ih]
      by_cases h : present hd <;> simp [h]

theorem verifyCriticalFiles_eq_all (present : String → Bool) :
    verifyCriticalFiles present = criticalFiles.all present := by
  rw [verifyCriticalFiles, foldl_and_pred]
  simp

theorem ensureDir_eq (st : DestFS) (d : String) :
    ensureDir st d = .ok { st with dirs := addDir st.dirs d } := by
  simp [ensureDir, mkdirRecursive, addDir]

/-- `ensureDir` on a pre-existing directory is not an error and leaves
the destination unchanged. -/
theorem ensureDir_of_mem (st : DestFS) (d : String) (h : d ∈ st.dirs) :
    ensureDir st d = .ok st := by
  simp [ensureDir_eq, addDir, h]

theorem copyFile_snd (ok : String → Bool) (src dest content : String)
    (st : DestFS) : (copyFile ok src dest content st).2 = ok src := by
  rw [copyFile, ensureDir_eq]
  cases h : ok src <;> simp [h]

theorem copyFile_allOk (src dest content : String) (st : DestFS) :
    copyFile allOk src dest content st
      = ({ dirs := addDir st.dirs (dirname dest),
           files := setFile st.files dest content }, true) := by
  rw [copyFile, ensureDir_eq]
  simp [allOk]

theorem writeAll_nil (fs : List (String × String)) : writeAll fs [] = fs := rfl

theorem writeAll_cons (fs : List (String × String)) (kv : String × String)
    (rest : List (String × String)) :
    writeAll fs (kv :: rest) = writeAll (setFile fs kv.1 kv.2) rest := rfl

theorem writeAll_append (fs : List (String × String))
    (l1 l2 : List (String × String)) :
    writeAll fs (l1 ++ l2) = writeAll (writeAll fs l1) l2 := by
  simp [writeAll, List.foldl_append]

theorem addDirs_nil (ds : List String) : addDirs ds [] = ds := rfl

theorem addDirs_cons (ds : List String) (d : String) (seq : List String) :
    addDirs ds (d :: seq) = addDirs (addDir ds d) seq := rfl

theorem addDirs_append (ds : List String) (s1 s2 : List String) :
    addDirs ds (s1 ++ s2) = addDirs (addDirs ds s1) s2 := by
  simp [addDirs, List.foldl_append]

theorem setFile_of_lookup_none (fs : List (String × String)) (k v : String)
    (h : lookupFile fs k = none) : setFile fs k v = fs ++ [(k, v)] := by
  induction fs with
  | nil => simp [setFile]
  | cons hd tl ih =>
      rw [lookupFile] at h
      by_cases hk : hd.1 = k
      · simp [hk] at h
      · simp [hk] at h
        simp [setFile, hk, ih h]

theorem setFile_of_lookup_some (fs : List (String × String)) (k v : String)
    (h : lookupFile fs k = some v) : setFile fs k v = fs := by
  induction fs with
  | nil => simp [lookupFile] at h
  | cons hd tl ih =>
      obtain ⟨k1, v1⟩ := hd
      rw [lookupFile] at h
      by_cases hk : k1 = k
      · rw [if_pos hk] at h
        have hv : v1 = v := Option.some.inj h
        rw [setFile, if_pos hk, ← hk, ← hv]
      · rw [if_neg hk] at h
        rw [setFile, if_neg hk, ih h]

theorem lookupFile_setFile_self (fs : List (String × String)) (k v : String) :
    lookupFile (setFile fs k v) k = some v := by
  induction fs with
  | nil => simp [setFile, lookupFile]
  | cons hd tl ih =>
      by_cases hk : hd.1 = k
      · simp [setFile, hk, lookupFile]
      · simp [setFile, hk, lookupFile, ih]

theorem lookupFile_setFile_ne (fs : List (String × String)) (k1 v k : String)
    (h : k1 ≠ k) : lookupFile (setFile fs k1 v) k = lookupFile fs k := by
  induction fs with
  | nil => simp [setFile, lookupFile, h]
  | cons hd tl ih =>
      by_cases hk : hd.1 = k1
      · simp [setFile, hk, lookupFile, h]
      · simp [setFile, hk, lookupFile, ih]

theorem lookupFile_append (fs gs : List (String × String)) (k : String) :
    lookupFile (fs ++ gs) k
      = match lookupFile fs k with
        | some v => some v
        | none => lookupFile gs k := by
  induction fs with
  | nil => simp [lookupFile]
  | cons hd tl ih =>
      by_cases hk : hd.1 = k
      · simp [lookupFile, hk]
      · simp [lookupFile, hk, ih]

theorem lookupFile_writeAll_not_mem (new : List (String × String))
    (fs : List (String × String)) (k : String)
    (h : k ∉ new.map Prod.fst) :
    lookupFile (writeAll fs new) k = lookupFile fs k := by
  induction new generalizing fs with
  | nil => rfl
  | cons hd tl ih =>
      simp only [List.map_cons, List.mem_cons] at h
      push_neg at h
      rw [writeAll_cons, ih _ h.2, lookupFile_setFile_ne _ _ _ _ (Ne.symm h.1)]

theorem lookupFile_writeAll_mem (new : List (String × String))
    (hnd : (new.map Prod.fst).Nodup) (fs : List (String × String)) :
    ∀ kv ∈ new, lookupFile (writeAll fs new) kv.1 = some kv.2 := by
  induction new generalizing fs with
  | nil => simp
  | cons hd tl ih =>
      simp only [List.map_cons, List.nodup_cons] at hnd
      intro kv hkv
      rcases List.mem_cons.1 hkv with h | h
      · subst h
        rw [writeAll_cons, lookupFile_writeAll_not_mem _ _ _ hnd.1,
          lookupFile_setFile_self]
      · exact writeAll_cons fs hd tl ▸ ih hnd.2 _ kv h

theorem writeAll_of_fresh (new : List (String × String))
    (hnd : (new.map Prod.fst).Nodup) (fs : List (String × String))
    (hfresh : ∀ kv ∈ new, lookupFile fs kv.1 = none) :
    writeAll fs new = fs ++ new := by
  induction new generalizing fs with
  | nil => simp [writeAll_nil]
  | cons hd tl ih =>
      simp only [List.map_cons, List.nodup_cons] at hnd
      rw [writeAll_cons, setFile_of_lookup_none _ _ _ (hfresh hd (by simp)),
        ih hnd.2]
      · simp
      · intro kv hkv
        rw [lookupFile_append]
        rw [hfresh kv (by simp [hkv])]
        have hne : kv.1 ≠ hd.1 := by
          intro hcontra
          exact hnd.1 (hcontra ▸ List.mem_map_of_mem Prod.fst hkv)
        simp [lookupFile, Ne.symm hne]

theorem writeAll_of_lookup (new fs : List (String × String))
    (h : ∀ kv ∈ new, lookupFile fs kv.1 = some kv.2) :
    writeAll fs new = fs := by
  induction new with
  | nil => rfl
  | cons hd tl ih =>
      rw [writeAll_cons, setFile_of_lookup_some _ _ _ (h hd (by simp))]
      exact ih fun kv hkv => h kv (by simp [hkv])

theorem mem_addDir_left (ds : List String) (d e : String) (h : e ∈ ds) :
    e ∈ addDir ds d := by
  unfold addDir
  split <;> simp [h]

theorem mem_addDir_self (ds : List String) (d : String) : d ∈ addDir ds d := by
  unfold addDir
  split <;> simp_all

theorem mem_addDirs_of_mem (ds seq : List String) (e : String) (h : e ∈ ds) :
    e ∈ addDirs ds seq := by
  induction seq generalizing ds with
  | nil => exact h
  | cons hd tl ih => exact ih _ (mem_addDir_left _ _ _ h)

theorem mem_addDirs_of_mem_seq (ds seq : List String) (e : String)
    (h : e ∈ seq) : e ∈ addDirs ds seq := by
  induction seq generalizing ds with
  | nil => simp at h
  | cons hd tl ih =>
      rcases List.mem_cons.1 h with h1 | h1
      · subst h1
        rw [addDirs_cons]
        exact mem_addDirs_of_mem _ _ _ (mem_addDir_self _ _)
      · exact ih _ h1

theorem addDirs_of_subset (ds seq : List String)
    (h : ∀ d ∈ seq, d ∈ ds) : addDirs ds seq = ds := by
  induction seq with
  | nil => rfl
  | cons hd tl ih =>
      rw [addDirs_cons]
      have : addDir ds hd = ds := by simp [addDir, h hd (by simp)]
      rw [this]
      exact ih fun d hd1 => h d (by simp [hd1])

mutual

/-- The audit list returned by `copyDirectory` records, in traversal
order, one entry per source file with the success of its individual
copy — independently of the destination state and of any earlier
failures. -/
theorem copyDirectory_results : ∀ (ok : String → Bool) (src dest : String)
    (children : List FsTree) (st : DestFS),
    (copyDirectory ok src dest children st).2
      = (filePathsUnder src children).map (fun p => (p, ok p))
  | ok, src, dest, children, st => by
      rw [copyDirectory, ensureDir_eq]
      exact copyEntries_results ok src dest children _

theorem copyEntries_results : ∀ (ok : String → Bool) (src dest : String)
    (l : List FsTree) (st : DestFS),
    (copyEntries ok src dest l st).2
      = (filePathsUnder src l).map (fun p => (p, ok p))
  | ok, src, dest, [], st => by simp [copyEntries, filePathsUnder]
  | ok, src, dest, .file name content :: tl, st => by
      rw [copyEntries, filePathsUnder]
      simp only [List.map_cons]
      rw [copyEntries_results ok src dest tl _, copyFile_snd]
  | ok, src, dest, .dir name sub :: tl, st => by
      rw [copyEntries, filePathsUnder]
      simp only [List.map_append]
      rw [copyEntries_results ok src dest tl _,
        copyDirectory_results ok _ _ sub _]

end

mutual

/-- Destination state after a fully successful `copyDirectory` run:
exactly the ensured directories are added and exactly the source files
are written (in traversal order). -/
theorem copyDirectory_state : ∀ (src dest : String)
    (children : List FsTree) (st : DestFS),
    (copyDirectory allOk src dest children st).1
      = ⟨addDirs st.dirs (dest :: ensuredDirs dest children),
         writeAll st.files (destFilesUnder dest children)⟩
  | src, dest, children, st => by
      rw [copyDirectory, ensureDir_eq, addDirs_cons]
      exact copyEntries_state src dest children _

theorem copyEntries_state : ∀ (src dest : String) (l : List FsTree)
    (st : DestFS),
    (copyEntries allOk src dest l st).1
      = ⟨addDirs st.dirs (ensuredDirs dest l),
         writeAll st.files (destFilesUnder dest l)⟩
  | src, dest, [], st => by
      simp [copyEntries, ensuredDirs, destFilesUnder, addDirs_nil,
        writeAll_nil]
  | src, dest, .file name content :: tl, st => by
      rw [copyEntries, copyFile_allOk]
      rw [copyEntries_state src dest tl _]
      rw [ensuredDirs, destFilesUnder, addDirs_cons, writeAll_cons]
  | src, dest, .dir name sub :: tl, st => by
      rw [copyEntries, copyDirectory_state _ _ sub _]
      rw [copyEntries_state src dest tl _]
      rw [ensuredDirs, destFilesUnder]
      simp only [addDirs_cons, addDirs_append, writeAll_append]

end

end CopyMonaco

namespace CopyMonaco

/-- In a path-to-content map with no duplicate paths, every entry is
found by lookup. -/
theorem lookupFile_self_of_nodup (l : List (String × String))
    (hnd : (l.map Prod.fst).Nodup) :
    ∀ kv ∈ l, lookupFile l kv.1 = some kv.2 := by
  induction l with
  | nil => simp
  | cons hd tl ih =>
      simp only [List.map_cons, List.nodup_cons] at hnd
      intro kv hkv
      rcases List.mem_cons.1 hkv with h | h
      · subst h
        simp [lookupFile]
      · have hne : hd.1 ≠ kv.1 := by
          intro hcontra
          exact hnd.1 (hcontra ▸ List.mem_map_of_mem Prod.fst h)
        rw [lookupFile]
        rw [if_neg hne]
        exact ih hnd.2 kv h

/-- The destination file list produced by a traversal has one entry per
source file. -/
theorem destFilesUnder_length : ∀ (dest : String) (l : List FsTree),
    (destFilesUnder dest l).length = fileCount l
  | _, [] => by simp [destFilesUnder, fileCount]
  | dest, .file _ _ :: tl => by
      simp [destFilesUnder, fileCount, destFilesUnder_length dest tl]
  | dest, .dir name sub :: tl => by
      simp [destFilesUnder, fileCount, destFilesUnder_length _ sub,
        destFilesUnder_length dest tl]

end CopyMonaco

/-- C1: while a build is in progress (`isBuilding`), any burst of
`K ≥ 1` further change events only sets the single `buildQueue` flag —
no additional `buildProject` invocation starts during the burst — and
once the in-progress build completes and the queued `setTimeout`
callback fires, exactly one additional rebuild starts (not `K`). -/
theorem claim_C1_burst_coalesced_to_one_rebuild (s : DevLoop.DevState)
    (K : Nat) (hb : s.isBuilding = true) (he : s.exited = none)
    (hK : 1 ≤ K) :
    (DevLoop.callBuild^[K] s).isBuilding = true
    ∧ (DevLoop.callBuild^[K] s).buildQueue = true
    ∧ (DevLoop.callBuild^[K] s).buildsStarted = s.buildsStarted
    ∧ (DevLoop.timerFires
        (DevLoop.buildCompletes (DevLoop.callBuild^[K] s) .success)).buildsStarted
        = s.buildsStarted + 1 := by
  rw [DevLoop.callBuild_iterate_building s hb he K hK]
  refine ⟨hb, rfl, rfl, ?_⟩
  simp [DevLoop.buildCompletes, DevLoop.timerFires, DevLoop.callBuild, he]

/-- Witness for C1 at a concrete state and burst size `K = 3`. -/
theorem claim_C1_burst_coalesced_to_one_rebuild_witness :
    (DevLoop.callBuild^[3] ⟨true, false, false, 1, none⟩).buildQueue = true
    ∧ (DevLoop.callBuild^[3]
        ⟨true, false, false, 1, none⟩).buildsStarted = 1
    ∧ (DevLoop.timerFires (DevLoop.buildCompletes
        (DevLoop.callBuild^[3] ⟨true, false, false, 1, none⟩)
        .success)).buildsStarted = 2 :=
  have h := claim_C1_burst_coalesced_to_one_rebuild
    ⟨true, false, false, 1, none⟩ 3 rfl rfl (by decide)
  ⟨h.2.1, h.2.2.1, h.2.2.2⟩

/-- C2 (code bug): the claim says the final rebuild after the last
change runs to completion before the loop goes idle even when a bundler
invocation fails.  In the code, a failing `buildProject` catches its own
error and calls `process.exit(1)` (build.js lines 71–74), so the dev
process dies with the queued rebuild never run; the `catch` block of
`DevServer.build` that would log the failure and process the queue is
unreachable.  This theorem evaluates the model on the failing trace:
one change starts a build, a second change is queued, the build fails —
the process has exited with code 1 after a single `buildProject`
invocation, and no further event (change or timer) starts the queued
rebuild. -/
theorem claim_C2_failed_build_kills_loop :
    (DevLoop.callBuild (DevLoop.callBuild DevLoop.devInit)).buildQueue = true
    ∧ DevLoop.buildCompletes
        (DevLoop.callBuild (DevLoop.callBuild DevLoop.devInit))
        .failure = ⟨true, true, false, 1, some 1⟩
    ∧ DevLoop.callBuild ⟨true, true, false, 1, some 1⟩
        = ⟨true, true, false, 1, some 1⟩
    ∧ DevLoop.timerFires ⟨true, true, false, 1, some 1⟩
        = ⟨true, true, false, 1, some 1⟩ := by
  decide

/-- C3: if any critical file is absent after the copy, `copyModernMonaco`
exits with code 1 and does not write `verification.json`; the manifest
is written only when every critical file is present. -/
theorem claim_C3_missing_critical_file_fails_loudly
    (present : String → Bool)
    (hmiss : ∃ f ∈ CopyMonaco.criticalFiles, present f = false) :
    CopyMonaco.finishCopy present = ⟨some 1, false⟩
    ∧ ∀ q : String → Bool,
        (CopyMonaco.finishCopy q).manifestWritten = true →
          ∀ f ∈ CopyMonaco.criticalFiles, q f = true := by
  constructor
  · obtain ⟨f, hf, hpf⟩ := hmiss
    have hall : CopyMonaco.verifyCriticalFiles present = false := by
      rw [CopyMonaco.verifyCriticalFiles_eq_all]
      cases hc : CopyMonaco.criticalFiles.all present with
      | false => rfl
      | true => exact absurd (List.all_eq_true.1 hc f hf) (by simp [hpf])
    simp [CopyMonaco.finishCopy, hall]
  · intro q hq f hf
    cases hv : CopyMonaco.verifyCriticalFiles q with
    | false => simp [CopyMonaco.finishCopy, hv] at hq
    | true =>
        have := (CopyMonaco.verifyCriticalFiles_eq_all q) ▸ hv
        exact List.all_eq_true.1 this f hf

/-- Witness for C3: with `onig.wasm` absent, the copier exits 1 and
writes no manifest. -/
theorem claim_C3_missing_critical_file_fails_loudly_witness :
    CopyMonaco.finishCopy (fun f => f != "onig.wasm") = ⟨some 1, false⟩ :=
  (claim_C3_missing_critical_file_fails_loudly
    (fun f => f != "onig.wasm") (by decide)).1

/-- C7: an individual file-copy failure is non-fatal.  For every error
oracle `ok`, `copyDirectory` returns normally (no exception propagates:
the function is total and its audit list is always defined), its audit
list has exactly one entry per source file in traversal order — so a
failed copy never aborts the traversal or skips later entries — and
`copyFile` returns `false` exactly when the primitive copy fails. -/
theorem claim_C7_file_copy_failure_nonfatal :
    ∀ (ok : String → Bool) (src dest : String)
      (children : List CopyMonaco.FsTree) (st : CopyMonaco.DestFS),
      (CopyMonaco.copyDirectory ok src dest children st).2
        = (CopyMonaco.filePathsUnder src children).map (fun p => (p, ok p))
      ∧ ∀ s d c : String, (CopyMonaco.copyFile ok s d c st).2 = ok s :=
  fun ok src dest children st =>
    ⟨CopyMonaco.copyDirectory_results ok src dest children st,
     fun s d c => CopyMonaco.copyFile_snd ok s d c st⟩

/-- C8: copying a tree of `N` files into the empty destination yields
exactly the `N` source files byte-for-byte (assuming the tree's file
paths are distinct, as in a real file system); a second run over the
same source changes nothing (idempotence); and `ensureDir` on a
pre-existing directory is not an error. -/
theorem claim_C8_copy_faithful_and_idempotent (src dest : String)
    (children : List CopyMonaco.FsTree)
    (hnd : ((CopyMonaco.destFilesUnder dest children).map Prod.fst).Nodup) :
    (CopyMonaco.copyDirectory CopyMonaco.allOk src dest children
        CopyMonaco.emptyFS).1.files
      = CopyMonaco.destFilesUnder dest children
    ∧ (CopyMonaco.copyDirectory CopyMonaco.allOk src dest children
        CopyMonaco.emptyFS).1.files.length = CopyMonaco.fileCount children
    ∧ CopyMonaco.copyDirectory CopyMonaco.allOk src dest children
        (CopyMonaco.copyDirectory CopyMonaco.allOk src dest children
          CopyMonaco.emptyFS).1
      = CopyMonaco.copyDirectory CopyMonaco.allOk src dest children
          CopyMonaco.emptyFS
    ∧ ∀ (st : CopyMonaco.DestFS) (d : String), d ∈ st.dirs →
        CopyMonaco.ensureDir st d = .ok st := by
  have hstate := CopyMonaco.copyDirectory_state src dest children
    CopyMonaco.emptyFS
  have hfiles : (CopyMonaco.copyDirectory CopyMonaco.allOk src dest children
      CopyMonaco.emptyFS).1.files = CopyMonaco.destFilesUnder dest children := by
    rw [hstate]
    have := CopyMonaco.writeAll_of_fresh _ hnd
      (CopyMonaco.emptyFS.files) (fun kv _ => rfl)
    simpa [CopyMonaco.emptyFS] using this
  refine ⟨hfiles, ?_, ?_, fun st d h => CopyMonaco.ensureDir_of_mem st d h⟩
  · rw [hfiles, CopyMonaco.destFilesUnder_length]
  · have hdirs : ∀ d ∈ dest :: CopyMonaco.ensuredDirs dest children,
        d ∈ (CopyMonaco.copyDirectory CopyMonaco.allOk src dest children
          CopyMonaco.emptyFS).1.dirs := by
      rw [hstate]
      intro d hd
      exact CopyMonaco.mem_addDirs_of_mem_seq _ _ _ hd
    have hlook : ∀ kv ∈ CopyMonaco.destFilesUnder dest children,
        CopyMonaco.lookupFile (CopyMonaco.copyDirectory CopyMonaco.allOk src
          dest children CopyMonaco.emptyFS).1.files kv.1 = some kv.2 := by
      rw [hfiles]
      exact CopyMonaco.lookupFile_self_of_nodup _ hnd
    have hstate2 := CopyMonaco.copyDirectory_state src dest children
      (CopyMonaco.copyDirectory CopyMonaco.allOk src dest children
        CopyMonaco.emptyFS).1
    have hres1 := CopyMonaco.copyDirectory_results CopyMonaco.allOk src dest
      children CopyMonaco.emptyFS
    have hres2 := CopyMonaco.copyDirectory_results CopyMonaco.allOk src dest
      children (CopyMonaco.copyDirectory CopyMonaco.allOk src dest children
        CopyMonaco.emptyFS).1
    have hfst : (CopyMonaco.copyDirectory CopyMonaco.allOk src dest children
        (CopyMonaco.copyDirectory CopyMonaco.allOk src dest children
          CopyMonaco.emptyFS).1).1
        = (CopyMonaco.copyDirectory CopyMonaco.allOk src dest children
          CopyMonaco.emptyFS).1 := by
      rw [hstate2, CopyMonaco.addDirs_of_subset _ _ hdirs,
        CopyMonaco.writeAll_of_lookup _ _ hlook]
    exact Prod.ext hfst (hres2.trans hres1.symm)

/-- Witness for C8 on a concrete two-file tree with a subdirectory. -/
theorem claim_C8_copy_faithful_and_idempotent_witness :
    ((CopyMonaco.destFilesUnder "public/monaco"
        [CopyMonaco.FsTree.file "index.mjs" "exportA",
         CopyMonaco.FsTree.dir "lsp"
           [CopyMonaco.FsTree.file "worker.mjs" "exportB"]]).map
      Prod.fst).Nodup
    ∧ (CopyMonaco.copyDirectory CopyMonaco.allOk "dist" "public/monaco"
        [CopyMonaco.FsTree.file "index.mjs" "exportA",
         CopyMonaco.FsTree.dir "lsp"
           [CopyMonaco.FsTree.file "worker.mjs" "exportB"]]
        CopyMonaco.emptyFS).1.files
      = CopyMonaco.destFilesUnder "public/monaco"
        [CopyMonaco.FsTree.file "index.mjs" "exportA",
         CopyMonaco.FsTree.dir "lsp"
           [CopyMonaco.FsTree.file "worker.mjs" "exportB"]] :=
  ⟨by simp only [CopyMonaco.destFilesUnder]; decide,
   (claim_C8_copy_faithful_and_idempotent "dist" "public/monaco"
     [CopyMonaco.FsTree.file "index.mjs" "exportA",
      CopyMonaco.FsTree.dir "lsp"
        [CopyMonaco.FsTree.file "worker.mjs" "exportB"]]
     (by simp only [CopyMonaco.destFilesUnder]; decide)).1⟩

namespace StaticServer

theorem getHeader_set_self (hs : List (String × String)) (k v : String) :
    getHeader (setHeader hs k v) k = some v :=
  CopyMonaco.lookupFile_setFile_self hs k v

theorem getHeader_set_ne (hs : List (String × String)) (k1 v k : String)
    (h : k1 ≠ k) : getHeader (setHeader hs k1 v) k = getHeader hs k :=
  CopyMonaco.lookupFile_setFile_ne hs k1 v k h

/-- Appending a root in front of a relative path preserves a path
suffix (the file path `express.static` resolves keeps the request
path's extension). -/
theorem pathEndsWith_append (r p s : String)
    (h : pathEndsWith p s = true) : pathEndsWith (r ++ p) s = true := by
  simp only [pathEndsWith, decide_eq_true_eq] at h ⊢
  rw [String.data_append]
  exact h.trans (List.suffix_append _ _)

/-- Two extensions neither of which is a suffix of the other cannot
both be suffixes of the same path. -/
theorem pathEndsWith_excl (p s1 s2 : String)
    (h1 : pathEndsWith p s1 = true)
    (hno1 : ¬ s1.data <:+ s2.data) (hno2 : ¬ s2.data <:+ s1.data) :
    pathEndsWith p s2 = false := by
  simp only [pathEndsWith, decide_eq_true_eq] at h1
  simp only [pathEndsWith, decide_eq_false_iff_not]
  intro h2
  rcases List.suffix_or_suffix_of_suffix h1 h2 with hc | hc
  · exact hno1 hc
  · exact hno2 hc

/-- A path that ends in an extension containing a dot contains a dot. -/
theorem pathHasDot_of_endsWith (p s : String) (hc : '.' ∈ s.data)
    (h : pathEndsWith p s = true) : pathHasDot p = true := by
  simp only [pathEndsWith, decide_eq_true_eq] at h
  simp only [pathHasDot, decide_eq_true_eq]
  exact h.subset hc

/-- Stripping the 7-character `/monaco` mount point from a path that
begins with `/monaco/` preserves a suffix that contains no slash. -/
theorem pathEndsWith_stripMount (p s : String)
    (hpfx : pathStartsWith p "/monaco/" = true)
    (hsfx : pathEndsWith p s = true) (hslash : ¬ ('/' ∈ s.data)) :
    pathEndsWith (stripMount p) s = true := by
  simp only [pathStartsWith, decide_eq_true_eq] at hpfx
  simp only [pathEndsWith, decide_eq_true_eq] at hsfx ⊢
  obtain ⟨t, ht⟩ := hpfx
  have hdata : (stripMount p).data = '/' :: t := by
    show p.data.drop 7 = '/' :: t
    rw [← ht, List.drop_append_eq_append_drop]
    have h1 : "/monaco/".data.drop 7 = ['/'] := by decide
    have h2 : (7 - "/monaco/".data.length) = 0 := by decide
    rw [h1, h2, List.drop_zero, List.singleton_append]
  have hsub : ('/' :: t) <:+ p.data := by
    rw [← hdata]
    exact List.drop_suffix 7 p.data
  rcases List.suffix_or_suffix_of_suffix hsfx hsub with hc | hc
  · rw [hdata]
    exact hc
  · exact absurd (hc.subset (List.mem_cons_self _ _)) hslash

/-- The `setHeaders` callback of the static mounts puts
`application/javascript` on a file path ending in `.mjs`. -/
theorem staticSetHeaders_mjs (fp : String) (hs : List (String × String))
    (h : pathEndsWith fp ".mjs" = true) :
    getHeader (staticSetHeaders fp hs) "Content-Type"
      = some "application/javascript" := by
  have hw : pathEndsWith fp ".wasm" = false :=
    pathEndsWith_excl fp ".mjs" ".wasm" h (by decide) (by decide)
  simp only [staticSetHeaders, h, hw, if_true, Bool.false_eq_true, if_false,
    if_pos, reduceIte]
  exact getHeader_set_self hs "Content-Type" "application/javascript"

/-- The `setHeaders` callback of the static mounts puts
`application/wasm` on a file path ending in `.wasm`. -/
theorem staticSetHeaders_wasm (fp : String) (hs : List (String × String))
    (h : pathEndsWith fp ".wasm" = true) :
    getHeader (staticSetHeaders fp hs) "Content-Type"
      = some "application/wasm" := by
  have hm : pathEndsWith fp ".mjs" = false :=
    pathEndsWith_excl fp ".wasm" ".mjs" h (by decide) (by decide)
  simp only [staticSetHeaders, h, hm, Bool.false_eq_true, if_false, reduceIte]
  exact getHeader_set_self hs "Content-Type" "application/wasm"

end StaticServer

/-- C4: every request whose path ends in `.mjs` and resolves to an
existing file under one of the two static roots is answered with
`Content-Type: application/javascript` exactly, and every `.wasm`
request resolving to an existing file with
`Content-Type: application/wasm` exactly. -/
theorem claim_C4_module_and_wasm_mime_types
    (publicFS monacoFS : List String) (req : StaticServer.Request) :
    (StaticServer.pathEndsWith req.path ".mjs" = true →
      (req.path ∈ publicFS ∨
        (StaticServer.pathStartsWith req.path "/monaco/" = true ∧
          StaticServer.stripMount req.path ∈ monacoFS)) →
      StaticServer.getHeader
        (StaticServer.handle publicFS monacoFS req).headers "Content-Type"
        = some "application/javascript")
    ∧ (StaticServer.pathEndsWith req.path ".wasm" = true →
      (req.path ∈ publicFS ∨
        (StaticServer.pathStartsWith req.path "/monaco/" = true ∧
          StaticServer.stripMount req.path ∈ monacoFS)) →
      StaticServer.getHeader
        (StaticServer.handle publicFS monacoFS req).headers "Content-Type"
        = some "application/wasm") := by
  constructor
  · intro hext hres
    by_cases hp : req.path ∈ publicFS
    · simp only [StaticServer.handle, if_pos hp, StaticServer.serveStatic]
      exact StaticServer.staticSetHeaders_mjs _ _
        (StaticServer.pathEndsWith_append "public" _ _ hext)
    · rcases hres with hp1 | ⟨hm1, hm2⟩
      · exact absurd hp1 hp
      · simp only [StaticServer.handle, if_neg hp,
          if_pos (And.intro hm1 hm2), StaticServer.serveStatic]
        exact StaticServer.staticSetHeaders_mjs _ _
          (StaticServer.pathEndsWith_append "../../dist" _ _
            (StaticServer.pathEndsWith_stripMount _ _ hm1 hext (by decide)))
  · intro hext hres
    by_cases hp : req.path ∈ publicFS
    · simp only [StaticServer.handle, if_pos hp, StaticServer.serveStatic]
      exact StaticServer.staticSetHeaders_wasm _ _
        (StaticServer.pathEndsWith_append "public" _ _ hext)
    · rcases hres with hp1 | ⟨hm1, hm2⟩
      · exact absurd hp1 hp
      · simp only [StaticServer.handle, if_neg hp,
          if_pos (And.intro hm1 hm2), StaticServer.serveStatic]
        exact StaticServer.staticSetHeaders_wasm _ _
          (StaticServer.pathEndsWith_append "../../dist" _ _
            (StaticServer.pathEndsWith_stripMount _ _ hm1 hext (by decide)))

/-- Witness for C4: an existing `.mjs` file under the public root and
an existing `.wasm` file under the `/monaco` mount. -/
theorem claim_C4_module_and_wasm_mime_types_witness :
    StaticServer.getHeader
      (StaticServer.handle ["/dist/app.mjs"] ["/onig.wasm"]
        ⟨"/dist/app.mjs", true⟩).headers "Content-Type"
      = some "application/javascript"
    ∧ StaticServer.getHeader
      (StaticServer.handle ["/dist/app.mjs"] ["/onig.wasm"]
        ⟨"/monaco/onig.wasm", true⟩).headers "Content-Type"
      = some "application/wasm" :=
  ⟨(claim_C4_module_and_wasm_mime_types ["/dist/app.mjs"] ["/onig.wasm"]
      ⟨"/dist/app.mjs", true⟩).1 (by decide) (Or.inl (by decide)),
   (claim_C4_module_and_wasm_mime_types ["/dist/app.mjs"] ["/onig.wasm"]
      ⟨"/monaco/onig.wasm", true⟩).2 (by decide)
     (Or.inr ⟨by decide, by decide⟩)⟩

/-- C5: a GET whose path contains a dot but resolves to no existing
file under either static root gets status 404 and never the default
document. -/
theorem claim_C5_dotted_unresolved_is_404
    (publicFS monacoFS : List String) (req : StaticServer.Request)
    (hdot : StaticServer.pathHasDot req.path = true)
    (hp : req.path ∉ publicFS)
    (hm : ¬(StaticServer.pathStartsWith req.path "/monaco/" = true ∧
      StaticServer.stripMount req.path ∈ monacoFS)) :
    (StaticServer.handle publicFS monacoFS req).status = 404
    ∧ (StaticServer.handle publicFS monacoFS req).body
        ≠ StaticServer.Body.indexHtml := by
  have hh : req.path ≠ "/health" := by
    intro h
    rw [h] at hdot
    exact absurd hdot (by decide)
  have hd : req.path ≠ "/debug/files" := by
    intro h
    rw [h] at hdot
    exact absurd hdot (by decide)
  simp only [StaticServer.handle, if_neg hp, if_neg hm, if_neg hh, if_neg hd]
  by_cases hjs : StaticServer.pathEndsWith req.path ".js" = true
  · simp [hjs]
  · by_cases hmjs : StaticServer.pathEndsWith req.path ".mjs" = true
    · simp [hjs, hmjs]
    · simp [hjs, hmjs, hdot]

/-- Witness for C5 at a concrete missing module path. -/
theorem claim_C5_dotted_unresolved_is_404_witness :
    (StaticServer.handle [] [] ⟨"/nonexistent.mjs", true⟩).status = 404
    ∧ (StaticServer.handle [] [] ⟨"/nonexistent.mjs", true⟩).body
        ≠ StaticServer.Body.indexHtml :=
  claim_C5_dotted_unresolved_is_404 [] [] ⟨"/nonexistent.mjs", true⟩
    (by decide) (by decide) (by decide)

/-- C6 as stated is false: `/health` is a dot-free path and the client
may accept HTML, yet the response is the health JSON payload, not the
default document, because the `/health` route is registered before the
fallback. -/
theorem claim_C6_counterexample_health :
    StaticServer.pathHasDot "/health" = false
    ∧ (StaticServer.handle [] [] ⟨"/health", true⟩).status = 200
    ∧ (StaticServer.handle [] [] ⟨"/health", true⟩).body
        ≠ StaticServer.Body.indexHtml := by
  refine ⟨by decide, ?_, ?_⟩ <;> decide

/-- C6 amended: a dot-free GET from an HTML-accepting client is
answered 200 with the default document provided no earlier route
matches — the path resolves to no existing file under either static
root and is neither `/health` nor `/debug/files`. -/
theorem claim_C6_amended_dotless_html_fallback
    (publicFS monacoFS : List String) (req : StaticServer.Request)
    (hdot : StaticServer.pathHasDot req.path = false)
    (hhtml : req.acceptsHtml = true)
    (hp : req.path ∉ publicFS)
    (hm : ¬(StaticServer.pathStartsWith req.path "/monaco/" = true ∧
      StaticServer.stripMount req.path ∈ monacoFS))
    (hh : req.path ≠ "/health") (hd : req.path ≠ "/debug/files") :
    (StaticServer.handle publicFS monacoFS req).status = 200
    ∧ (StaticServer.handle publicFS monacoFS req).body
        = StaticServer.Body.indexHtml := by
  have hjs : StaticServer.pathEndsWith req.path ".js" = false := by
    cases hcase : StaticServer.pathEndsWith req.path ".js" with
    | false => rfl
    | true =>
        simp [StaticServer.pathHasDot_of_endsWith req.path ".js"
          (by decide) hcase] at hdot
  have hmjs : StaticServer.pathEndsWith req.path ".mjs" = false := by
    cases hcase : StaticServer.pathEndsWith req.path ".mjs" with
    | false => rfl
    | true =>
        simp [StaticServer.pathHasDot_of_endsWith req.path ".mjs"
          (by decide) hcase] at hdot
  simp [StaticServer.handle, if_neg hp, if_neg hm, if_neg hh, if_neg hd,
    hjs, hmjs, hdot, hhtml]

/-- Witness for the amended C6 at a concrete navigation path. -/
theorem claim_C6_amended_dotless_html_fallback_witness :
    (StaticServer.handle [] [] ⟨"/editor", true⟩).status = 200
    ∧ (StaticServer.handle [] [] ⟨"/editor", true⟩).body
        = StaticServer.Body.indexHtml :=
  claim_C6_amended_dotless_html_fallback [] [] ⟨"/editor", true⟩
    (by decide) rfl (by decide) (by decide) (by decide) (by decide)

/-- C10 as stated is false: `/debug/files` is a dot-free path and the
client need not accept HTML, yet the response is the debug JSON with
status 200, not a 404, because the `/debug/files` route is registered
before the fallback. -/
theorem claim_C10_counterexample_debug_files :
    StaticServer.pathHasDot "/debug/files" = false
    ∧ (StaticServer.handle [] [] ⟨"/debug/files", false⟩).status = 200
    ∧ (StaticServer.handle [] [] ⟨"/debug/files", false⟩).body
        ≠ StaticServer.Body.text "File not found" := by
  refine ⟨by decide, ?_, ?_⟩ <;> decide

/-- C10 amended: a dot-free GET from a client that does not accept
HTML is answered 404 with body `File not found` — never the default
document — provided no earlier route matches (no existing file, not
`/health`, not `/debug/files`); together with the amended C6 this
shows the default-document fallback requires both conditions. -/
theorem claim_C10_amended_dotless_nonhtml_404
    (publicFS monacoFS : List String) (req : StaticServer.Request)
    (hdot : StaticServer.pathHasDot req.path = false)
    (hhtml : req.acceptsHtml = false)
    (hp : req.path ∉ publicFS)
    (hm : ¬(StaticServer.pathStartsWith req.path "/monaco/" = true ∧
      StaticServer.stripMount req.path ∈ monacoFS))
    (hh : req.path ≠ "/health") (hd : req.path ≠ "/debug/files") :
    (StaticServer.handle publicFS monacoFS req).status = 404
    ∧ (StaticServer.handle publicFS monacoFS req).body
        = StaticServer.Body.text "File not found" := by
  have hjs : StaticServer.pathEndsWith req.path ".js" = false := by
    cases hcase : StaticServer.pathEndsWith req.path ".js" with
    | false => rfl
    | true =>
        simp [StaticServer.pathHasDot_of_endsWith req.path ".js"
          (by decide) hcase] at hdot
  have hmjs : StaticServer.pathEndsWith req.path ".mjs" = false := by
    cases hcase : StaticServer.pathEndsWith req.path ".mjs" with
    | false => rfl
    | true =>
        simp [StaticServer.pathHasDot_of_endsWith req.path ".mjs"
          (by decide) hcase] at hdot
  simp [StaticServer.handle, if_neg hp, if_neg hm, if_neg hh, if_neg hd,
    hjs, hmjs, hdot, hhtml]

/-- Witness for the amended C10 at a concrete navigation path. -/
theorem claim_C10_amended_dotless_nonhtml_404_witness :
    (StaticServer.handle [] [] ⟨"/playground", false⟩).status = 404
    ∧ (StaticServer.handle [] [] ⟨"/playground", false⟩).body
        = StaticServer.Body.text "File not found" :=
  claim_C10_amended_dotless_nonhtml_404 [] [] ⟨"/playground", false⟩
    (by decide) rfl (by decide) (by decide) (by decide) (by decide)

namespace SetupTest

/-- `testFileExists` records exactly the outcome determined by the
environment, whatever the current state. -/
theorem testFileExists_eq (env : TestEnv) (p desc : String)
    (st : TesterState) :
    testFileExists env p desc st = record st (fileExistsOutcome env p desc) := by
  unfold testFileExists fileExistsOutcome
  cases env.fileOk p <;> simp

/-- `testFileContent` records exactly the outcome determined by the
environment, whatever the current state. -/
theorem testFileContent_eq (env : TestEnv) (p desc expected : String)
    (st : TesterState) :
    testFileContent env p desc expected st
      = record st (fileContentOutcome env p desc expected) := by
  unfold testFileContent fileContentOutcome
  cases env.readFile p with
  | ok c => by_cases h : strIncludes c expected <;> simp [h]
  | error msg => simp

/-- `testHttpEndpoint` records exactly the outcome determined by the
environment, whatever the current state. -/
theorem testHttpEndpoint_eq (env : TestEnv) (url desc : String)
    (st : TesterState) :
    testHttpEndpoint env url desc st = record st (httpOutcome env url desc) := by
  unfold testHttpEndpoint httpOutcome
  cases env.http url with
  | status code => by_cases h : code = 200 <;> simp [h]
  | connError msg => simp
  | timeout => simp

/-- Recording one outcome grows the three arrays by one entry in
total. -/
theorem length_record (st : TesterState) (c : CheckResult) :
    (record st c).successes.length + (record st c).warnings.length
      + (record st c).errors.length
    = st.successes.length + st.warnings.length + st.errors.length + 1 := by
  cases c <;> simp [record] <;> omega

/-- Folding a list of outcomes grows the arrays by exactly its
length. -/
theorem length_foldl_record (l : List CheckResult) : ∀ st : TesterState,
    (l.foldl record st).successes.length
      + (l.foldl record st).warnings.length
      + (l.foldl record st).errors.length
    = st.successes.length + st.warnings.length + st.errors.length
      + l.length := by
  induction l with
  | nil => intro st; simp
  | cons hd tl ih =>
      intro st
      rw [List.foldl_cons, ih, length_record]
      simp
      omega

/-- The straight-line `runTests` is the fold of the per-check outcome
list: every check runs, in order, and its outcome depends only on the
environment, never on an earlier check's failure. -/
theorem runTests_eq (env : TestEnv) :
    runTests env = (checkOutcomes env).foldl record initialState := by
  cases hps : env.packageScripts with
  | ok scripts =>
      simp only [runTests, checkOutcomes, scriptOutcomes, hps,
        testFileExists_eq, testFileContent_eq, testHttpEndpoint_eq,
        List.foldl_append, List.foldl_cons, List.foldl_nil,
        List.foldl_map, apply_ite]
  | error msg =>
      simp only [runTests, checkOutcomes, scriptOutcomes, hps,
        testFileExists_eq, testFileContent_eq, testHttpEndpoint_eq,
        List.foldl_append, List.foldl_cons, List.foldl_nil,
        List.foldl_map, apply_ite]

end SetupTest

/-- C9: the verification runner executes every check of its fixed
ordered sequence regardless of earlier failures — `runTests` equals the
fold of a per-check outcome list in which each entry depends on the
environment alone — every check records exactly one outcome and never
throws (every branch of every check returns a state), the final report
counts all recorded outcomes, and an HTTP probe that is refused or
times out is recorded as an error from its single probe, not
retried. -/
theorem claim_C9_all_checks_recorded_independent (env : SetupTest.TestEnv) :
    SetupTest.runTests env
      = (SetupTest.checkOutcomes env).foldl SetupTest.record
          SetupTest.initialState
    ∧ (SetupTest.generateReport (SetupTest.runTests env)).1
        + (SetupTest.generateReport (SetupTest.runTests env)).2.1
        + (SetupTest.generateReport (SetupTest.runTests env)).2.2
        = (SetupTest.checkOutcomes env).length
    ∧ (∀ url desc st msg, env.http url = .connError msg →
        SetupTest.testHttpEndpoint env url desc st
          = SetupTest.record st
              (.error (desc ++ " not accessible: " ++ msg)))
    ∧ (∀ url desc st, env.http url = .timeout →
        SetupTest.testHttpEndpoint env url desc st
          = SetupTest.record st (.error (desc ++ " timeout"))) := by
  refine ⟨SetupTest.runTests_eq env, ?_, ?_, ?_⟩
  · rw [SetupTest.runTests_eq env]
    have h := SetupTest.length_foldl_record (SetupTest.checkOutcomes env)
      SetupTest.initialState
    simpa [SetupTest.generateReport, SetupTest.initialState] using h
  · intro url desc st msg h
    simp [SetupTest.testHttpEndpoint, h]
  · intro url desc st h
    simp [SetupTest.testHttpEndpoint, h]

/-- Witness for C9 in the all-failing environment: all 22 checks still
record an outcome (21 independent checks plus the single package.json
parse error), and a timed-out probe is recorded as an error. -/
theorem claim_C9_all_checks_recorded_independent_witness :
    (SetupTest.generateReport (SetupTest.runTests SetupTest.failEnv)).1
      + (SetupTest.generateReport (SetupTest.runTests SetupTest.failEnv)).2.1
      + (SetupTest.generateReport (SetupTest.runTests SetupTest.failEnv)).2.2
      = 22
    ∧ SetupTest.testHttpEndpoint SetupTest.failEnv
        "http://localhost:3000/health" "Health endpoint"
        SetupTest.initialState
      = SetupTest.record SetupTest.initialState
          (.error ("Health endpoint" ++ " timeout")) :=
  ⟨((claim_C9_all_checks_recorded_independent SetupTest.failEnv).2.1).trans
     (by rfl),
   (claim_C9_all_checks_recorded_independent SetupTest.failEnv).2.2.2
     "http://localhost:3000/health" "Health endpoint"
     SetupTest.initialState rfl⟩
